import Mathlib

/-! GPIO instance manager.

Shallow embedding of `src/src/gpio.c` and `src/src/main.c` and of the
hardware-abstraction calls they issue.  The static-pool build (no `USE_DYNAMIC_MEM`) is
modelled in `Gpio`, the dynamic-memory build in `Gpio.Dynamic`.  The hardware layer and
the heap are external: the calls the manager makes are recorded in a trace, and the
level a pin read reports and the heap's reply to a request are supplied by the
environment.
-/

namespace Gpio

/-! ## Data model -/

/-- Values of the C type `uint8_t`. -/
abbrev uint8_t := Fin 256

/-- Number of slots of the static pool (`gpio.h`, line 48 and `gpio.c`, line 34). -/
abbrev GPIO_MAX_INSTANCES : Nat := 10

/-- The record `struct gpio_s` of `gpio.c` in the static-pool build. -/
structure gpio_s where
  port : uint8_t
  bit : uint8_t
  output : Bool
  used : Bool
  deriving DecidableEq, Repr

/-- The handle type `gpio_t`, a pointer to `struct gpio_s`: `none` is `NULL`,
`some p` is the address of slot `p` of the static pool. -/
abbrev gpio_t := Option (Fin GPIO_MAX_INSTANCES)

/-- The array `instances[GPIO_MAX_INSTANCES]` that is local to `allocateInstance`. -/
abbrev Pool := Fin GPIO_MAX_INSTANCES → gpio_s

/-- One call received by the hardware-abstraction layer. -/
inductive HalCall where
  | hal_gpio_set_direction (port bit : uint8_t) (output : Bool)
  | hal_gpio_set_output (port bit : uint8_t) (state : Bool)
  | hal_gpio_get_input (port bit : uint8_t)
  deriving DecidableEq, Repr

/-- The level that `hal_gpio_get_input port bit` reports, given the calls the hardware
layer has received so far.  The hardware layer is not part of the repository. -/
abbrev PinReader := List HalCall → uint8_t → uint8_t → Bool

/-- Program state: the static pool and the calls made to the hardware layer so far. -/
structure State where
  instances : Pool
  trace : List HalCall

/-- The pool as the C start-up code leaves it: `instances[...] = {0}`. -/
def zeroPool : Pool := fun _ => { port := 0, bit := 0, output := false, used := false }

/-- The state at program start: zero-initialised pool, no hardware call made yet. -/
def initState : State := { instances := zeroPool, trace := [] }

/-! ## Operations -/

/-- The `for` loop of `allocateInstance` (`gpio.c`, lines 86-92), entered with the loop
variable equal to `index`.  The first argument bounds the number of iterations that
are still possible; the loop runs at most `GPIO_MAX_INSTANCES` times. -/
def allocateInstance.loop (instances : Pool) : Nat → Nat → gpio_t × Pool
  | 0, _ => (none, instances)
  | fuel + 1, index =>
    if h : index < GPIO_MAX_INSTANCES then
      if !(instances ⟨index, h⟩).used then
        (some ⟨index, h⟩,
          Function.update instances ⟨index, h⟩ { instances ⟨index, h⟩ with used := true })
      else
        allocateInstance.loop instances fuel (index + 1)
    else
      (none, instances)

/-- The function `allocateInstance` (`gpio.c`, lines 82-94): `result` starts as `NULL`,
the loop starts at index `0`. -/
def allocateInstance (instances : Pool) : gpio_t × Pool :=
  allocateInstance.loop instances GPIO_MAX_INSTANCES 0

/-- The function `gpioCreate` (`gpio.c`, lines 109-123), static-pool branch. -/
def gpioCreate (s : State) (port bit : uint8_t) : gpio_t × State :=
  match allocateInstance s.instances with
  | (some self, instances) =>
    (some self,
      { s with
        instances :=
          Function.update instances self
            { instances self with port := port, bit := bit, output := false } })
  | (none, instances) => (none, { s with instances := instances })

/-- The function `gpioSetOutput` (`gpio.c`, lines 133-138).  Dereferencing `NULL` is
undefined behaviour: no resulting state. -/
def gpioSetOutput (s : State) (self : gpio_t) (output : Bool) : Option State :=
  match self with
  | none => none
  | some p =>
    let instances := Function.update s.instances p { s.instances p with output := output }
    some
      { instances := instances
        trace :=
          s.trace ++ [HalCall.hal_gpio_set_direction (instances p).port (instances p).bit output] }

/-- The function `gpioSetState` (`gpio.c`, lines 148-153).  Dereferencing `NULL` is
undefined behaviour: no resulting state. -/
def gpioSetState (s : State) (self : gpio_t) (state : Bool) : Option State :=
  match self with
  | none => none
  | some p =>
    if (s.instances p).output then
      some
        { s with
          trace :=
            s.trace ++ [HalCall.hal_gpio_set_output (s.instances p).port (s.instances p).bit state] }
    else
      some s

/-- The function `gpioGetState` (`gpio.c`, lines 163-165): the value returned and the
state after the call.  Dereferencing `NULL` is undefined behaviour: no result. -/
def gpioGetState (hal : PinReader) (s : State) (self : gpio_t) : Option (Bool × State) :=
  match self with
  | none => none
  | some p =>
    some
      (hal s.trace (s.instances p).port (s.instances p).bit,
        { s with
          trace := s.trace ++ [HalCall.hal_gpio_get_input (s.instances p).port (s.instances p).bit] })

/-! ## Sequences of calls -/

/-- Consecutive `gpioCreate` calls, one per `(port, bit)` pair, with the returned
handles in call order. -/
def createAll (s : State) : List (uint8_t × uint8_t) → List gpio_t × State
  | [] => ([], s)
  | (port, bit) :: rest =>
    let r := gpioCreate s port bit
    let rs := createAll r.2 rest
    (r.1 :: rs.1, rs.2)

/-- One call of the public interface of `gpio.h`. -/
inductive Call where
  | create (port bit : uint8_t)
  | setOutput (self : gpio_t) (output : Bool)
  | setState (self : gpio_t) (state : Bool)
  | getState (self : gpio_t)

/-- The state after one interface call; `none` when the call dereferences `NULL`. -/
def step (hal : PinReader) (s : State) : Call → Option State
  | Call.create port bit => some (gpioCreate s port bit).2
  | Call.setOutput self output => gpioSetOutput s self output
  | Call.setState self state => gpioSetState s self state
  | Call.getState self => (gpioGetState hal s self).map Prod.snd

/-- The state after a sequence of interface calls, made in list order. -/
def run (hal : PinReader) (s : State) : List Call → Option State
  | [] => some s
  | c :: cs => (step hal s c).bind fun s' => run hal s' cs

/-! ## Auxiliary definitions -/

/-- The handle expected from the `k`-th creation (counting from zero) on a pool that
starts empty: slot `k` while slots remain, `NULL` afterwards. -/
def expectedHandle (k : Nat) : gpio_t :=
  if h : k < GPIO_MAX_INSTANCES then some ⟨k, h⟩ else none

/-- Slot `p` is occupied and holds the given port and bit. -/
def holds (s : State) (p : Fin GPIO_MAX_INSTANCES) (port bit : uint8_t) : Prop :=
  (s.instances p).used = true ∧ (s.instances p).port = port ∧ (s.instances p).bit = bit

/-! ## Sample inputs -/

/-- A state whose slot 0 is free but holds stale field values and whose slot 1 is
occupied and configured as output. -/
def sampleState : State :=
  { instances := fun q =>
      if q = 0 then { port := 9, bit := 9, output := true, used := false }
      else if q = 1 then { port := 2, bit := 5, output := true, used := true }
      else { port := 0, bit := 0, output := false, used := false }
    trace := [HalCall.hal_gpio_set_direction 2 5 true] }

/-- A pin reader that reports a high level on every read. -/
def alwaysHigh : PinReader := fun _ _ _ => true

/-- A call sequence that reconfigures, drives and reads slot 0, creates two more
instances and reconfigures one of them. -/
def sampleCalls : List Call :=
  [Call.setOutput (some 0) true, Call.create 3 4, Call.setState (some 0) false,
    Call.getState (some 0), Call.setOutput (some 1) true, Call.create 5 6,
    Call.setOutput (some 0) false, Call.setState (some 1) true]

/-! ## Entry point -/

/-- The macro `LED_ROJO_PORT` of `main.c`, line 38. -/
def LED_ROJO_PORT : uint8_t := 1

/-- The macro `LED_ROJO_BIT` of `main.c`, line 39. -/
def LED_ROJO_BIT : uint8_t := 7

/-- The function `main` (`main.c`, lines 64-69), linked with the static-pool build of
`gpio.c`: the handle returned by `gpioCreate` is passed on unchecked. -/
def main (s : State) : Option State :=
  let red_led := gpioCreate s LED_ROJO_PORT LED_ROJO_BIT
  (gpioSetOutput red_led.2 red_led.1 true).bind fun s1 => gpioSetState s1 red_led.1 false

/-! ## Bookkeeping over call sequences -/

/-- Number of slots of the pool whose `used` flag is set. -/
def liveInstances (s : State) : Nat :=
  (Finset.univ.filter fun q : Fin GPIO_MAX_INSTANCES => (s.instances q).used = true).card

/-- The handles returned by the `gpioCreate` calls of a call sequence that did not return
`NULL`, in call order.  The sequence ends at a call that dereferences `NULL`. -/
def createdHandles (hal : PinReader) (s : State) : List Call → List (Fin GPIO_MAX_INSTANCES)
  | [] => []
  | c :: cs =>
    match step hal s c with
    | none => []
    | some s' =>
      match c with
      | Call.create port bit => (gpioCreate s port bit).1.toList ++ createdHandles hal s' cs
      | _ => createdHandles hal s' cs

/-- One call on an instance that is already known: configure, drive or read. -/
inductive PinOp where
  | setOutput (output : Bool)
  | setState (state : Bool)
  | getState

/-- The interface call that applies a `PinOp` to the handle `self`. -/
def PinOp.toCall (self : gpio_t) : PinOp → Call
  | PinOp.setOutput output => Call.setOutput self output
  | PinOp.setState state => Call.setState self state
  | PinOp.getState => Call.getState self

/-- The argument of the most recent `setOutput` of a sequence given in call order;
`none` when the sequence has no `setOutput`. -/
def lastSetOutput : List PinOp → Option Bool
  | [] => none
  | op :: ops =>
    match lastSetOutput ops with
    | some output => some output
    | none =>
      match op with
      | PinOp.setOutput output => some output
      | _ => none

/-! ## Dynamic-memory build -/

namespace Dynamic

/-- The record `struct gpio_s` of `gpio.c` when `USE_DYNAMIC_MEM` is defined: there is
no `used` field. -/
structure gpio_s where
  port : uint8_t
  bit : uint8_t
  output : Bool
  deriving DecidableEq, Repr

/-- The handle type `gpio_t` in the dynamic build: `none` is `NULL`, `some a` is the
address of the `a`-th block handed out by the heap. -/
abbrev gpio_t := Option Nat

/-- Program state of the dynamic build: the blocks handed out by the heap so far, in
allocation order, and the calls made to the hardware layer so far. -/
structure State where
  heap : List gpio_s
  trace : List HalCall

/-- The state at program start: nothing allocated, no hardware call made yet. -/
def initState : State := { heap := [], trace := [] }

/-- The library call `malloc(sizeof(struct gpio_s))`.  The heap is not part of the
repository: `answer` is its reply to this request, `none` when it refuses and
`some block` when it grants a fresh block whose initial content is `block`. -/
def malloc (answer : Option gpio_s) (heap : List gpio_s) : gpio_t × List gpio_s :=
  match answer with
  | some block => (some heap.length, heap ++ [block])
  | none => (none, heap)

/-- The function `gpioCreate` (`gpio.c`, lines 109-123), `USE_DYNAMIC_MEM` branch. -/
def gpioCreate (answer : Option gpio_s) (s : State) (port bit : uint8_t) : gpio_t × State :=
  match malloc answer s.heap with
  | (some self, heap) =>
    (some self,
      { s with
        heap :=
          match heap[self]? with
          | some g => heap.set self { g with port := port, bit := bit, output := false }
          | none => heap })
  | (none, heap) => (none, { s with heap := heap })

/-- The function `gpioSetOutput` (`gpio.c`, lines 133-138) in the dynamic build.
Dereferencing `NULL` or an address that is not a block is undefined behaviour. -/
def gpioSetOutput (s : State) (self : gpio_t) (output : Bool) : Option State :=
  match self with
  | none => none
  | some a =>
    match s.heap[a]? with
    | none => none
    | some g =>
      some
        { heap := s.heap.set a { g with output := output }
          trace := s.trace ++ [HalCall.hal_gpio_set_direction g.port g.bit output] }

/-- The function `gpioSetState` (`gpio.c`, lines 148-153) in the dynamic build.
Dereferencing `NULL` or an address that is not a block is undefined behaviour. -/
def gpioSetState (s : State) (self : gpio_t) (state : Bool) : Option State :=
  match self with
  | none => none
  | some a =>
    match s.heap[a]? with
    | none => none
    | some g =>
      if g.output then
        some { s with trace := s.trace ++ [HalCall.hal_gpio_set_output g.port g.bit state] }
      else
        some s

/-- The function `main` (`main.c`, lines 64-69), linked with the dynamic build of
`gpio.c`; `answer` is the heap's reply to the one request `main` causes. -/
def main (answer : Option gpio_s) (s : State) : Option State :=
  let red_led := gpioCreate answer s LED_ROJO_PORT LED_ROJO_BIT
  (gpioSetOutput red_led.2 red_led.1 true).bind fun s1 => gpioSetState s1 red_led.1 false

/-- Consecutive `gpioCreate` calls of the dynamic build, one per request; a request
carries the heap's reply and the `(port, bit)` arguments.  The returned handles are
listed in call order. -/
def createAll (s : State) : List (Option gpio_s × uint8_t × uint8_t) → List gpio_t × State
  | [] => ([], s)
  | (answer, port, bit) :: rest =>
    let r := gpioCreate answer s port bit
    let rs := createAll r.2 rest
    (r.1 :: rs.1, rs.2)

end Dynamic

/-! ## Further sample inputs -/

/-- A call sequence from program start: one creation followed by `sampleCalls`. -/
def sampleProgram : List Call := Call.create 1 7 :: sampleCalls

/-- The state after two creations from program start: slots 0 and 1 are live. -/
def twoLive : State := (createAll initState [(1, 7), (2, 5)]).2

/-- A state whose ten slots are all occupied, with differing field values. -/
def fullState : State :=
  { instances := fun q =>
      { port := 3, bit := Fin.castLE (by decide) q, output := decide (q.val % 2 = 0), used := true }
    trace := [HalCall.hal_gpio_get_input 3 0] }

/-- Eleven requests that the heap grants, each with a block of arbitrary content. -/
def elevenGranted : List (Option Dynamic.gpio_s × uint8_t × uint8_t) :=
  (List.range 11).map fun i =>
    (some { port := 200, bit := 100, output := true }, (1 : uint8_t), (Fin.ofNat i : uint8_t))

/-! ## The allocator -/

/-- Result of the allocation loop when every slot below the loop variable is occupied
and enough iterations remain: either the lowest free slot, claimed, or `NULL` with the
pool untouched when no slot is free. -/
theorem allocateInstance_loop_spec (instances : Pool) :
    ∀ (fuel index : Nat), GPIO_MAX_INSTANCES ≤ index + fuel →
      (∀ q : Fin GPIO_MAX_INSTANCES, q.val < index → (instances q).used = true) →
      (∃ p : Fin GPIO_MAX_INSTANCES,
          (instances p).used = false ∧
          (∀ q : Fin GPIO_MAX_INSTANCES, q < p → (instances q).used = true) ∧
          allocateInstance.loop instances fuel index =
            (some p, Function.update instances p { instances p with used := true })) ∨
        ((∀ q : Fin GPIO_MAX_INSTANCES, (instances q).used = true) ∧
          allocateInstance.loop instances fuel index = (none, instances)) := by
  intro fuel
  induction fuel with
  | zero =>
    intro index hfuel hbelow
    right
    refine ⟨fun q => hbelow q ?_, rfl⟩
    have := q.isLt
    omega
  | succ fuel ih =>
    intro index hfuel hbelow
    by_cases h : index < GPIO_MAX_INSTANCES
    · by_cases hu : (instances ⟨index, h⟩).used = true
      · have hstep : allocateInstance.loop instances (fuel + 1) index =
            allocateInstance.loop instances fuel (index + 1) := by
          simp [allocateInstance.loop, h, hu]
        rw [hstep]
        apply ih (index + 1) (by omega)
        intro q hq
        by_cases hqi : q.val = index
        · have : q = ⟨index, h⟩ := Fin.ext hqi
          rw [this]; exact hu
        · exact hbelow q (by omega)
      · left
        have hu' : (instances ⟨index, h⟩).used = false := by
          cases hx : (instances ⟨index, h⟩).used
          · rfl
          · exact absurd hx hu
        refine ⟨⟨index, h⟩, hu', fun q hq => hbelow q hq, ?_⟩
        simp [allocateInstance.loop, h, hu']
    · right
      refine ⟨fun q => hbelow q ?_, ?_⟩
      · have := q.isLt
        omega
      · simp [allocateInstance.loop, h]

/-- Result of `allocateInstance` on an arbitrary pool. -/
theorem allocateInstance_spec (instances : Pool) :
    (∃ p : Fin GPIO_MAX_INSTANCES,
        (instances p).used = false ∧
        (∀ q : Fin GPIO_MAX_INSTANCES, q < p → (instances q).used = true) ∧
        allocateInstance instances =
          (some p, Function.update instances p { instances p with used := true })) ∨
      ((∀ q : Fin GPIO_MAX_INSTANCES, (instances q).used = true) ∧
        allocateInstance instances = (none, instances)) :=
  allocateInstance_loop_spec instances GPIO_MAX_INSTANCES 0 (by omega) (fun q hq => by omega)

/-- Result of `gpioCreate` on an arbitrary state: the lowest free slot is claimed and
initialised, or nothing changes and `NULL` is returned when no slot is free. -/
theorem gpioCreate_spec (s : State) (port bit : uint8_t) :
    (∃ p : Fin GPIO_MAX_INSTANCES,
        (s.instances p).used = false ∧
        (∀ q : Fin GPIO_MAX_INSTANCES, q < p → (s.instances q).used = true) ∧
        gpioCreate s port bit =
          (some p,
            { s with
              instances :=
                Function.update s.instances p
                  { port := port, bit := bit, output := false, used := true } })) ∨
      ((∀ q : Fin GPIO_MAX_INSTANCES, (s.instances q).used = true) ∧
        gpioCreate s port bit = (none, s)) := by
  rcases allocateInstance_spec s.instances with ⟨p, hfree, hlow, halloc⟩ | ⟨hfull, halloc⟩
  · left
    refine ⟨p, hfree, hlow, ?_⟩
    simp [gpioCreate, halloc]
  · right
    refine ⟨hfull, ?_⟩
    simp [gpioCreate, halloc]

/-- The lowest free slot of a pool is unique. -/
theorem lowest_free_unique (instances : Pool) (p p' : Fin GPIO_MAX_INSTANCES)
    (hp : (instances p).used = false)
    (hlow : ∀ q : Fin GPIO_MAX_INSTANCES, q < p → (instances q).used = true)
    (hp' : (instances p').used = false)
    (hlow' : ∀ q : Fin GPIO_MAX_INSTANCES, q < p' → (instances q).used = true) : p = p' := by
  rcases lt_trichotomy p p' with h | h | h
  · have := hlow' p h
    rw [hp] at this
    exact absurd this (by decide)
  · exact h
  · have := hlow p' h
    rw [hp'] at this
    exact absurd this (by decide)

/-- The trace of hardware calls after `gpioCreate` is the trace before it. -/
theorem gpioCreate_trace (s : State) (port bit : uint8_t) :
    (gpioCreate s port bit).2.trace = s.trace := by
  rcases gpioCreate_spec s port bit with ⟨p, _, _, h⟩ | ⟨_, h⟩ <;> rw [h]

/-! ## Repeated creation -/

/-- When exactly the slots below `k` are occupied, consecutive creations return the
slots `k`, `k + 1`, ... in order and `NULL` once the pool is exhausted. -/
theorem createAll_from (args : List (uint8_t × uint8_t)) :
    ∀ (s : State) (k : Nat),
      (∀ q : Fin GPIO_MAX_INSTANCES, (s.instances q).used = decide (q.val < k)) →
      (createAll s args).1 = (List.range args.length).map fun i => expectedHandle (k + i) := by
  induction args with
  | nil => intro s k _; rfl
  | cons a rest ih =>
    intro s k hk
    obtain ⟨port, bit⟩ := a
    have hshape : (List.range (rest.length + 1)).map (fun i => expectedHandle (k + i)) =
        expectedHandle k ::
          (List.range rest.length).map (fun i => expectedHandle (k + 1 + i)) := by
      rw [List.range_succ_eq_map, List.map_cons, List.map_map]
      congr 1
      apply List.map_congr_left
      intro i _
      simp only [Function.comp, Nat.succ_eq_add_one]
      congr 1
      omega
    simp only [createAll, List.length_cons]
    rw [hshape]
    rcases gpioCreate_spec s port bit with ⟨p, hfree, hlow, hcreate⟩ | ⟨hfull, hcreate⟩
    · have hpk : p.val = k := by
        have h1 : ¬ p.val < k := by
          intro hlt
          have := hk p
          rw [hfree] at this
          simp [hlt] at this
        by_contra hne
        have hlt : k < p.val := by omega
        have hk10 : k < GPIO_MAX_INSTANCES := lt_trans hlt p.isLt
        have h2 := hlow ⟨k, hk10⟩ (by exact hlt)
        have h3 := hk ⟨k, hk10⟩
        rw [h2] at h3
        simp at h3
      have hexp : expectedHandle k = some p := by
        have hk10 : k < GPIO_MAX_INSTANCES := hpk ▸ p.isLt
        simp only [expectedHandle, hk10, dite_true]
        congr 1
        exact Fin.ext hpk.symm
      rw [hcreate, hexp]
      congr 1
      apply ih
      intro q
      by_cases hq : q = p
      · subst hq
        simp [hpk]
      · simp only [Function.update_noteq hq]
        rw [hk q]
        have : q.val ≠ k := fun h => hq (Fin.ext (h.trans hpk.symm))
        by_cases hlt : q.val < k
        · simp [hlt, Nat.lt_succ_of_lt hlt]
        · have : ¬ q.val < k + 1 := by omega
          simp [hlt, this]
    · have hk10 : ¬ k < GPIO_MAX_INSTANCES := by
        intro hlt
        have h1 := hfull ⟨k, hlt⟩
        have h2 := hk ⟨k, hlt⟩
        rw [h1] at h2
        simp at h2
      have hexp : expectedHandle k = none := by
        simp only [expectedHandle, hk10, dite_false]
      rw [hcreate, hexp]
      congr 1
      apply ih
      intro q
      rw [hk q]
      have hq := q.isLt
      have h1 : q.val < k := by omega
      have h2 : q.val < k + 1 := by omega
      simp [h1, h2]

/-! ## Immutability of `port` and `bit` -/

/-- No interface call frees an occupied slot or rewrites its port or bit. -/
theorem step_holds (hal : PinReader) (p : Fin GPIO_MAX_INSTANCES) (port bit : uint8_t)
    (s s' : State) (c : Call) (hs : holds s p port bit) (hstep : step hal s c = some s') :
    holds s' p port bit := by
  obtain ⟨hused, hport, hbit⟩ := hs
  cases c with
  | create port' bit' =>
    simp only [step, Option.some.injEq] at hstep
    subst hstep
    rcases gpioCreate_spec s port' bit' with ⟨p', hfree, _, hcreate⟩ | ⟨_, hcreate⟩
    · have hne : p ≠ p' := by
        intro h
        rw [h, hfree] at hused
        exact absurd hused (by decide)
      rw [hcreate]
      simp only [holds, Function.update_noteq hne]
      exact ⟨hused, hport, hbit⟩
    · rw [hcreate]
      exact ⟨hused, hport, hbit⟩
  | setOutput self output =>
    cases self with
    | none => simp [step, gpioSetOutput] at hstep
    | some q =>
      simp only [step, gpioSetOutput, Option.some.injEq] at hstep
      subst hstep
      by_cases hq : p = q
      · subst hq
        simp only [holds, Function.update_same]
        exact ⟨hused, hport, hbit⟩
      · simp only [holds, Function.update_noteq hq]
        exact ⟨hused, hport, hbit⟩
  | setState self state =>
    cases self with
    | none => simp [step, gpioSetState] at hstep
    | some q =>
      simp only [step, gpioSetState] at hstep
      split at hstep <;>
        (simp only [Option.some.injEq] at hstep; subst hstep; exact ⟨hused, hport, hbit⟩)
  | getState self =>
    cases self with
    | none => simp [step, gpioGetState] at hstep
    | some q =>
      simp only [step, gpioGetState, Option.map_some', Option.some.injEq] at hstep
      subst hstep
      exact ⟨hused, hport, hbit⟩

/-- No sequence of interface calls frees an occupied slot or rewrites its port or bit. -/
theorem run_holds (hal : PinReader) (p : Fin GPIO_MAX_INSTANCES) (port bit : uint8_t)
    (calls : List Call) :
    ∀ (s s' : State), holds s p port bit → run hal s calls = some s' → holds s' p port bit := by
  induction calls with
  | nil =>
    intro s s' hs hrun
    simp only [run, Option.some.injEq] at hrun
    exact hrun ▸ hs
  | cons c cs ih =>
    intro s s' hs hrun
    simp only [run] at hrun
    cases hstep : step hal s c with
    | none => simp [hstep] at hrun
    | some s1 =>
      rw [hstep] at hrun
      exact ih s1 s' (step_holds hal p port bit s s1 c hs hstep) hrun

/-! ## Creation -/

/-- C1: for every pool state, `gpioCreate` returns the handle of slot `p` exactly when
`p` is the lowest-index slot whose `used` flag is false, that slot's flag is true
afterwards, and `gpioCreate` returns `NULL` if and only if all slots are flagged used. -/
theorem gpioCreate_first_fit (s : State) (port bit : uint8_t) :
    (∀ p : Fin GPIO_MAX_INSTANCES,
        (gpioCreate s port bit).1 = some p ↔
          ((s.instances p).used = false ∧
            ∀ q : Fin GPIO_MAX_INSTANCES, q < p → (s.instances q).used = true)) ∧
      (∀ p : Fin GPIO_MAX_INSTANCES,
        (gpioCreate s port bit).1 = some p →
          ((gpioCreate s port bit).2.instances p).used = true) ∧
      ((gpioCreate s port bit).1 = none ↔
        ∀ q : Fin GPIO_MAX_INSTANCES, (s.instances q).used = true) := by
  rcases gpioCreate_spec s port bit with ⟨p, hfree, hlow, hcreate⟩ | ⟨hfull, hcreate⟩
  · rw [hcreate]
    refine ⟨fun p' => ⟨?_, ?_⟩, ?_, ⟨?_, ?_⟩⟩
    · intro h
      have hp : p = p' := Option.some.inj h
      exact hp ▸ ⟨hfree, hlow⟩
    · rintro ⟨hfree', hlow'⟩
      exact congrArg some (lowest_free_unique s.instances p p' hfree hlow hfree' hlow')
    · intro p' h
      have hp : p = p' := Option.some.inj h
      subst hp
      simp
    · intro h
      exact absurd h (by simp)
    · intro hfull
      have := hfull p
      rw [hfree] at this
      exact absurd this (by decide)
  · rw [hcreate]
    refine ⟨fun p' => ⟨?_, ?_⟩, ?_, ⟨fun _ => hfull, fun _ => rfl⟩⟩
    · intro h
      exact absurd h (by simp)
    · rintro ⟨hfree', _⟩
      have := hfull p'
      rw [hfree'] at this
      exact absurd this (by decide)
    · intro p' h
      exact absurd h (by simp)

/-- C2: from the zero-initialised pool and for every choice of the port/bit arguments
of eleven consecutive `gpioCreate` calls, the first ten calls succeed, the k-th one
returning the handle of slot k-1, and the eleventh call returns `NULL`. -/
theorem gpioCreate_ten_then_null (args : List (uint8_t × uint8_t))
    (hlen : args.length = GPIO_MAX_INSTANCES + 1) :
    (createAll initState args).1 =
      [some 0, some 1, some 2, some 3, some 4, some 5, some 6, some 7, some 8, some 9, none] := by
  have h := createAll_from args initState 0 (fun q => by simp [initState, zeroPool])
  rw [h, hlen]
  decide

/-- Witness for C2: eleven creations with varying port/bit arguments. -/
theorem gpioCreate_ten_then_null_witness :
    (createAll initState
        [(1, 7), (0, 0), (255, 255), (1, 7), (2, 3), (4, 5), (6, 7), (8, 9), (10, 11),
          (12, 13), (14, 15)]).1 =
      [some 0, some 1, some 2, some 3, some 4, some 5, some 6, some 7, some 8, some 9, none] :=
  gpioCreate_ten_then_null _ (by decide)

/-- C3: for every port and bit of type `uint8_t` and every prior pool state, whenever
`gpioCreate` succeeds the returned instance has `port` and `bit` equal to the arguments
and is an input (`output` false). -/
theorem gpioCreate_initialises (s : State) (port bit : uint8_t) (p : Fin GPIO_MAX_INSTANCES)
    (hcreate : (gpioCreate s port bit).1 = some p) :
    ((gpioCreate s port bit).2.instances p).port = port ∧
      ((gpioCreate s port bit).2.instances p).bit = bit ∧
      ((gpioCreate s port bit).2.instances p).output = false := by
  rcases gpioCreate_spec s port bit with ⟨p', _, _, h⟩ | ⟨_, h⟩
  · rw [h] at hcreate ⊢
    have hp : p' = p := Option.some.inj hcreate
    subst hp
    simp
  · rw [h] at hcreate
    exact absurd hcreate (by simp)

/-- Witness for C3: creation in a slot that held other field values before. -/
theorem gpioCreate_initialises_witness :
    (gpioCreate sampleState 255 0).1 = some 0 ∧
      ((gpioCreate sampleState 255 0).2.instances 0).port = 255 ∧
      ((gpioCreate sampleState 255 0).2.instances 0).bit = 0 ∧
      ((gpioCreate sampleState 255 0).2.instances 0).output = false :=
  ⟨by decide, gpioCreate_initialises sampleState 255 0 0 (by decide)⟩

/-- C9: for every pool state and every port/bit pair, `gpioCreate` makes no call to the
hardware layer, whether it returns a handle or `NULL` (the trace is unchanged), and it
leaves every slot other than the one it returns as it was. -/
theorem gpioCreate_no_hal_call (s : State) (port bit : uint8_t) :
    (gpioCreate s port bit).2.trace = s.trace ∧
      ∀ q : Fin GPIO_MAX_INSTANCES,
        (gpioCreate s port bit).1 ≠ some q →
          (gpioCreate s port bit).2.instances q = s.instances q := by
  refine ⟨gpioCreate_trace s port bit, ?_⟩
  intro q hq
  rcases gpioCreate_spec s port bit with ⟨p, _, _, h⟩ | ⟨_, h⟩
  · rw [h] at hq ⊢
    have hne : q ≠ p := fun e => hq (congrArg some e.symm)
    simp [Function.update_noteq hne]
  · rw [h]

/-! ## Operations on an existing instance -/

/-- C4: for every handle to a slot whose stored direction is input and for every level,
`gpioSetState` returns normally with the state unchanged: no call is appended to the
trace and the instance and the rest of the pool are as before. -/
theorem gpioSetState_input_noop (s : State) (p : Fin GPIO_MAX_INSTANCES) (level : Bool)
    (hdir : (s.instances p).output = false) :
    gpioSetState s (some p) level = some s := by
  simp [gpioSetState, hdir]

/-- Witness for C4: a freshly created instance is an input. -/
theorem gpioSetState_input_noop_witness :
    ((gpioCreate initState 1 7).2.instances 0).output = false ∧
      gpioSetState (gpioCreate initState 1 7).2 (some 0) true =
        some (gpioCreate initState 1 7).2 :=
  ⟨by decide, gpioSetState_input_noop (gpioCreate initState 1 7).2 0 true (by decide)⟩

/-- C5: for every handle to a slot whose stored direction is output and for every level,
`gpioSetState` appends exactly one call to the trace, `hal_gpio_set_output` with the
stored port and bit and the level given, and changes nothing else. -/
theorem gpioSetState_output_drives (s : State) (p : Fin GPIO_MAX_INSTANCES) (level : Bool)
    (hdir : (s.instances p).output = true) :
    gpioSetState s (some p) level =
      some
        { s with
          trace :=
            s.trace ++
              [HalCall.hal_gpio_set_output (s.instances p).port (s.instances p).bit level] } := by
  simp [gpioSetState, hdir]

/-- Witness for C5: slot 1 of the sample state is an output on port 2, bit 5. -/
theorem gpioSetState_output_drives_witness :
    (sampleState.instances 1).output = true ∧
      gpioSetState sampleState (some 1) false =
        some
          { sampleState with
            trace :=
              sampleState.trace ++
                [HalCall.hal_gpio_set_output (sampleState.instances 1).port
                  (sampleState.instances 1).bit false] } :=
  ⟨by decide, gpioSetState_output_drives sampleState 1 false (by decide)⟩

/-- C6: for every handle to a slot, whatever its direction, `gpioGetState` appends
exactly one call to the trace, `hal_gpio_get_input` with the stored port and bit, changes
nothing else, and returns the level that this read reports. -/
theorem gpioGetState_reads_once (hal : PinReader) (s : State) (p : Fin GPIO_MAX_INSTANCES) :
    gpioGetState hal s (some p) =
      some
        (hal s.trace (s.instances p).port (s.instances p).bit,
          { s with
            trace :=
              s.trace ++ [HalCall.hal_gpio_get_input (s.instances p).port (s.instances p).bit] }) :=
  rfl

/-- C7: for every handle to a slot and every `is_output`, `gpioSetOutput` returns
normally, leaves the instance's direction equal to `is_output`, and appends exactly one
call to the trace, `hal_gpio_set_direction` with the stored port and bit and `is_output`;
this holds whatever the direction was before. -/
theorem gpioSetOutput_programs (s : State) (p : Fin GPIO_MAX_INSTANCES) (is_output : Bool) :
    ∃ s' : State,
      gpioSetOutput s (some p) is_output = some s' ∧
        (s'.instances p).output = is_output ∧
        s'.trace =
          s.trace ++
            [HalCall.hal_gpio_set_direction (s.instances p).port (s.instances p).bit is_output] := by
  refine ⟨_, rfl, ?_, ?_⟩ <;> simp

/-- C8: for every handle to a slot with stored `(port, bit)`, `gpioSetOutput` with `true`
followed by `gpioSetOutput` with `false` returns normally and extends the trace by
exactly two `hal_gpio_set_direction` calls for that `(port, bit)`, first with `true`,
then with `false`. -/
theorem gpioSetOutput_true_then_false (s : State) (p : Fin GPIO_MAX_INSTANCES) :
    ∃ s' : State,
      ((gpioSetOutput s (some p) true).bind fun s1 => gpioSetOutput s1 (some p) false) =
          some s' ∧
        s'.trace =
          s.trace ++
            [HalCall.hal_gpio_set_direction (s.instances p).port (s.instances p).bit true,
              HalCall.hal_gpio_set_direction (s.instances p).port (s.instances p).bit false] := by
  refine ⟨_, rfl, ?_⟩
  simp

/-! ## Immutability of the pin address -/

/-- C10: when `gpioCreate port bit` returns the handle of slot `p`, then after any
sequence of later interface calls (`gpioSetOutput`, `gpioSetState`, `gpioGetState` on any
handles, and further `gpioCreate` calls) the instance in slot `p` still has that port
and that bit. -/
theorem port_bit_immutable (hal : PinReader) (s : State) (port bit : uint8_t)
    (p : Fin GPIO_MAX_INSTANCES) (hcreate : (gpioCreate s port bit).1 = some p)
    (calls : List Call) (s' : State)
    (hrun : run hal (gpioCreate s port bit).2 calls = some s') :
    (s'.instances p).port = port ∧ (s'.instances p).bit = bit := by
  have hinit : holds (gpioCreate s port bit).2 p port bit := by
    rcases gpioCreate_spec s port bit with ⟨p', _, _, h⟩ | ⟨_, h⟩
    · rw [h] at hcreate ⊢
      have hp : p' = p := Option.some.inj hcreate
      subst hp
      simp [holds]
    · rw [h] at hcreate
      exact absurd hcreate (by simp)
  exact (run_holds hal p port bit calls _ s' hinit hrun).2

/-- Witness for C10: the instance created in slot 0 for port 1, bit 7 keeps both
values across the sample call sequence. -/
theorem port_bit_immutable_witness :
    (gpioCreate initState 1 7).1 = some 0 ∧
      ∃ s' : State,
        run alwaysHigh (gpioCreate initState 1 7).2 sampleCalls = some s' ∧
          (s'.instances 0).port = 1 ∧ (s'.instances 0).bit = 7 :=
  have hsome : (run alwaysHigh (gpioCreate initState 1 7).2 sampleCalls).isSome = true := rfl
  ⟨by decide, _, (Option.some_get hsome).symm,
    port_bit_immutable alwaysHigh initState 1 7 0 (by decide) sampleCalls _
      (Option.some_get hsome).symm⟩

/-! ## Direction changes -/

/-- On a handle to a slot, `gpioSetState` returns normally and leaves the pool as it
was. -/
theorem gpioSetState_instances (s : State) (p : Fin GPIO_MAX_INSTANCES) (level : Bool) :
    ∃ s' : State, gpioSetState s (some p) level = some s' ∧ s'.instances = s.instances := by
  cases hdir : (s.instances p).output
  · exact ⟨s, by simp [gpioSetState, hdir], rfl⟩
  · exact
      ⟨{ s with
          trace :=
            s.trace ++
              [HalCall.hal_gpio_set_output (s.instances p).port (s.instances p).bit level] },
        by simp only [gpioSetState, hdir, if_true], rfl⟩

/-- C11: for every handle to a slot, every level and either stored direction,
`gpioSetState` and `gpioGetState` return normally and leave the stored direction of the
instance (and of every other slot) as it was, while `gpioSetOutput` is the operation
that sets it: afterwards the direction is the value it was given. -/
theorem direction_changed_only_by_setOutput (hal : PinReader) (s : State)
    (p : Fin GPIO_MAX_INSTANCES) (level : Bool) :
    (∃ s' : State,
        gpioSetState s (some p) level = some s' ∧
          ∀ q : Fin GPIO_MAX_INSTANCES, (s'.instances q).output = (s.instances q).output) ∧
      (∃ r : Bool × State,
        gpioGetState hal s (some p) = some r ∧
          ∀ q : Fin GPIO_MAX_INSTANCES, (r.2.instances q).output = (s.instances q).output) ∧
      ∀ is_output : Bool,
        ∃ s' : State,
          gpioSetOutput s (some p) is_output = some s' ∧ (s'.instances p).output = is_output := by
  refine ⟨?_, ⟨_, rfl, fun _ => rfl⟩, fun is_output => ⟨_, rfl, by simp⟩⟩
  obtain ⟨s', hs', hinst⟩ := gpioSetState_instances s p level
  exact ⟨s', hs', fun q => by rw [hinst]⟩

/-! ## The demonstration scenario -/

/-- C12: run from the zero-initialised static pool and an empty trace, the scenario of
`main` (create on port 1, bit 7, configure as output, drive low) completes and leaves
exactly the trace `set_direction(1, 7, true)`, `set_output(1, 7, false)`; no input read
occurs. -/
theorem main_trace :
    (main initState).map State.trace =
      some [HalCall.hal_gpio_set_direction 1 7 true, HalCall.hal_gpio_set_output 1 7 false] := by
  decide

/-! ## Frame properties -/

/-- Creation leaves every slot that is already occupied as it was. -/
theorem gpioCreate_keeps_occupied (s : State) (port bit : uint8_t)
    (q : Fin GPIO_MAX_INSTANCES) (hused : (s.instances q).used = true) :
    (gpioCreate s port bit).2.instances q = s.instances q := by
  rcases gpioCreate_spec s port bit with ⟨p, hfree, _, h⟩ | ⟨_, h⟩
  · have hne : q ≠ p := by
      intro e
      rw [e, hfree] at hused
      exact absurd hused (by decide)
    rw [h]
    simp [Function.update_noteq hne]
  · rw [h]

/-- C18: for two distinct slots `p` and `q`, `gpioSetOutput`, `gpioSetState` and
`gpioGetState` on the handle of `p` return normally and leave the whole record of `q`
(port, bit, direction, occupancy flag) unchanged; and `gpioCreate` changes no slot other
than the one it returns and no slot that was already occupied. -/
theorem operations_touch_only_their_instance (hal : PinReader) (s : State)
    (p q : Fin GPIO_MAX_INSTANCES) (hpq : p ≠ q) :
    (∀ output : Bool,
        ∃ s' : State,
          gpioSetOutput s (some p) output = some s' ∧ s'.instances q = s.instances q) ∧
      (∀ state : Bool,
        ∃ s' : State,
          gpioSetState s (some p) state = some s' ∧ s'.instances q = s.instances q) ∧
      (∃ r : Bool × State,
        gpioGetState hal s (some p) = some r ∧ r.2.instances q = s.instances q) ∧
      (∀ (port bit : uint8_t) (r : Fin GPIO_MAX_INSTANCES),
        (gpioCreate s port bit).1 = some r →
          ∀ q' : Fin GPIO_MAX_INSTANCES,
            q' ≠ r → (gpioCreate s port bit).2.instances q' = s.instances q') ∧
      ∀ (port bit : uint8_t) (q' : Fin GPIO_MAX_INSTANCES),
        (s.instances q').used = true →
          (gpioCreate s port bit).2.instances q' = s.instances q' := by
  refine ⟨fun output => ⟨_, rfl, ?_⟩, fun state => ?_, ⟨_, rfl, rfl⟩, ?_, ?_⟩
  · simp [Function.update_noteq hpq.symm]
  · obtain ⟨s', hs', hinst⟩ := gpioSetState_instances s p state
    exact ⟨s', hs', by rw [hinst]⟩
  · intro port bit r hcreate q' hq'
    rcases gpioCreate_spec s port bit with ⟨p', _, _, h⟩ | ⟨_, h⟩
    · rw [h] at hcreate ⊢
      have hp : p' = r := Option.some.inj hcreate
      subst hp
      simp [Function.update_noteq hq']
    · rw [h]
  · intro port bit q' hused
    exact gpioCreate_keeps_occupied s port bit q' hused

/-- Witness for C18: with slots 0 and 1 live, operations on slot 0 leave slot 1 as it
was, and a further creation claims slot 2 and leaves slot 1 as it was. -/
theorem operations_touch_only_their_instance_witness :
    (∃ s' : State,
        gpioSetOutput twoLive (some 0) true = some s' ∧
          s'.instances 1 = twoLive.instances 1) ∧
      (∃ s' : State,
        gpioSetState twoLive (some 0) true = some s' ∧ s'.instances 1 = twoLive.instances 1) ∧
      (∃ r : Bool × State,
        gpioGetState alwaysHigh twoLive (some 0) = some r ∧
          r.2.instances 1 = twoLive.instances 1) ∧
      (gpioCreate twoLive 4 5).1 = some 2 ∧
      (twoLive.instances 1).used = true ∧
      (gpioCreate twoLive 4 5).2.instances 1 = twoLive.instances 1 :=
  have h := operations_touch_only_their_instance alwaysHigh twoLive 0 1 (by decide)
  ⟨h.1 true, h.2.1 true, h.2.2.1, by decide, by decide,
    h.2.2.2.1 4 5 2 (by decide) 1 (by decide)⟩

/-- C19: under the static-pool strategy, when `gpioCreate` returns `NULL` the state
after the call, that is every slot of the pool and the trace, is the state before it,
for every port/bit argument. -/
theorem gpioCreate_failure_atomic (s : State) (port bit : uint8_t)
    (hfail : (gpioCreate s port bit).1 = none) : (gpioCreate s port bit).2 = s := by
  rcases gpioCreate_spec s port bit with ⟨p, _, _, h⟩ | ⟨_, h⟩
  · rw [h] at hfail
    exact absurd hfail (by simp)
  · rw [h]

/-- Witness for C19: creation on a pool whose ten slots are occupied. -/
theorem gpioCreate_failure_atomic_witness :
    (gpioCreate fullState 255 0).1 = none ∧ (gpioCreate fullState 255 0).2 = fullState :=
  ⟨by decide, gpioCreate_failure_atomic fullState 255 0 (by decide)⟩

/-! ## Live instances and created handles -/

/-- No interface call clears the `used` flag of a slot. -/
theorem step_keeps_used (hal : PinReader) (s s' : State) (c : Call)
    (q : Fin GPIO_MAX_INSTANCES) (hused : (s.instances q).used = true)
    (hstep : step hal s c = some s') : (s'.instances q).used = true :=
  (step_holds hal q (s.instances q).port (s.instances q).bit s s' c ⟨hused, rfl, rfl⟩ hstep).1

/-- The number of live instances depends on the `used` flags only. -/
theorem liveInstances_congr (s s' : State)
    (h : ∀ q : Fin GPIO_MAX_INSTANCES, (s'.instances q).used = (s.instances q).used) :
    liveInstances s' = liveInstances s := by
  simp only [liveInstances, h]

/-- Creation adds one live instance when it returns a handle and none when it returns
`NULL`. -/
theorem liveInstances_gpioCreate (s : State) (port bit : uint8_t) :
    liveInstances (gpioCreate s port bit).2 =
      liveInstances s + (gpioCreate s port bit).1.toList.length := by
  rcases gpioCreate_spec s port bit with ⟨p, hfree, _, h⟩ | ⟨_, h⟩
  · rw [h]
    have hset :
        (Finset.univ.filter fun q : Fin GPIO_MAX_INSTANCES =>
            ((Function.update s.instances p
              { port := port, bit := bit, output := false, used := true }) q).used = true) =
          insert p (Finset.univ.filter fun q : Fin GPIO_MAX_INSTANCES =>
            (s.instances q).used = true) := by
      ext q
      by_cases hq : q = p
      · subst hq
        simp
      · simp [Function.update_noteq hq, hq]
    have hnot : p ∉ Finset.univ.filter fun q : Fin GPIO_MAX_INSTANCES =>
        (s.instances q).used = true := by
      simp [hfree]
    simp only [liveInstances, Option.toList, List.length_singleton]
    rw [hset, Finset.card_insert_of_not_mem hnot]
  · rw [h]
    simp [Option.toList]

/-- Calls other than creation leave the number of live instances as it was. -/
theorem liveInstances_step (hal : PinReader) (s s' : State) (c : Call)
    (hc : ∀ port bit, c ≠ Call.create port bit) (hstep : step hal s c = some s') :
    liveInstances s' = liveInstances s := by
  cases c with
  | create port bit => exact absurd rfl (hc port bit)
  | setOutput self output =>
    cases self with
    | none => simp [step, gpioSetOutput] at hstep
    | some p =>
      simp only [step, gpioSetOutput, Option.some.injEq] at hstep
      subst hstep
      apply liveInstances_congr
      intro q
      by_cases hq : q = p
      · subst hq
        simp
      · simp [Function.update_noteq hq]
  | setState self state =>
    cases self with
    | none => simp [step, gpioSetState] at hstep
    | some p =>
      obtain ⟨s1, hs1, hinst⟩ := gpioSetState_instances s p state
      simp only [step] at hstep
      rw [hs1] at hstep
      have : s1 = s' := Option.some.inj hstep
      subst this
      exact liveInstances_congr s s1 fun q => by rw [hinst]
  | getState self =>
    cases self with
    | none => simp [step, gpioGetState] at hstep
    | some p =>
      simp only [step, gpioGetState, Option.map_some', Option.some.injEq] at hstep
      subst hstep
      rfl

/-- Along a call sequence the number of live instances grows by the number of handles
that creation returned. -/
theorem run_liveInstances (hal : PinReader) (calls : List Call) :
    ∀ (s s' : State), run hal s calls = some s' →
      liveInstances s' = liveInstances s + (createdHandles hal s calls).length := by
  induction calls with
  | nil =>
    intro s s' hrun
    simp only [run, Option.some.injEq] at hrun
    subst hrun
    simp [createdHandles]
  | cons c cs ih =>
    intro s s' hrun
    simp only [run] at hrun
    cases hstep : step hal s c with
    | none => simp [hstep] at hrun
    | some s1 =>
      rw [hstep] at hrun
      have hrest := ih s1 s' hrun
      cases c with
      | create port bit =>
        have hs1 : s1 = (gpioCreate s port bit).2 := by
          simp only [step, Option.some.injEq] at hstep
          exact hstep.symm
        simp only [createdHandles, hstep, List.length_append]
        rw [hrest, hs1, liveInstances_gpioCreate]
        omega
      | setOutput self output =>
        simp only [createdHandles, hstep]
        rw [hrest, liveInstances_step hal s s1 _ (fun _ _ => by simp) hstep]
      | setState self state =>
        simp only [createdHandles, hstep]
        rw [hrest, liveInstances_step hal s s1 _ (fun _ _ => by simp) hstep]
      | getState self =>
        simp only [createdHandles, hstep]
        rw [hrest, liveInstances_step hal s s1 _ (fun _ _ => by simp) hstep]

/-- The handles that creation returns along a call sequence are pairwise distinct, and
each of them refers to a slot that was free when the sequence started. -/
theorem createdHandles_fresh (hal : PinReader) (calls : List Call) :
    ∀ s : State,
      (createdHandles hal s calls).Nodup ∧
        ∀ p ∈ createdHandles hal s calls, (s.instances p).used = false := by
  induction calls with
  | nil =>
    intro s
    simp [createdHandles]
  | cons c cs ih =>
    intro s
    cases hstep : step hal s c with
    | none => simp [createdHandles, hstep]
    | some s1 =>
      obtain ⟨hnodup, hfresh⟩ := ih s1
      have hback : ∀ p ∈ createdHandles hal s1 cs, (s.instances p).used = false := by
        intro p hp
        cases hused : (s.instances p).used
        · rfl
        · have h1 := step_keeps_used hal s s1 c p hused hstep
          rw [hfresh p hp] at h1
          exact absurd h1 (by decide)
      cases c with
      | create port bit =>
        have hs1 : s1 = (gpioCreate s port bit).2 := by
          simp only [step, Option.some.injEq] at hstep
          exact hstep.symm
        simp only [createdHandles, hstep]
        rcases gpioCreate_spec s port bit with ⟨p, hfree, _, h⟩ | ⟨_, h⟩
        · have hp1 : (s1.instances p).used = true := by
            rw [hs1, h]
            simp
          have hnotin : p ∉ createdHandles hal s1 cs := by
            intro hin
            rw [hfresh p hin] at hp1
            exact absurd hp1 (by decide)
          rw [h]
          simp only [Option.toList, List.singleton_append, List.nodup_cons, List.mem_cons]
          refine ⟨⟨hnotin, hnodup⟩, ?_⟩
          rintro q (hq | hq)
          · rw [hq]; exact hfree
          · exact hback q hq
        · rw [h]
          simp only [Option.toList, List.nil_append]
          exact ⟨hnodup, hback⟩
      | setOutput self output =>
        simp only [createdHandles, hstep]
        exact ⟨hnodup, hback⟩
      | setState self state =>
        simp only [createdHandles, hstep]
        exact ⟨hnodup, hback⟩
      | getState self =>
        simp only [createdHandles, hstep]
        exact ⟨hnodup, hback⟩

/-- C13: in every state reached from the zero-initialised pool by a sequence of
interface calls, the number of live instances (slots flagged used) equals the number of
`gpioCreate` calls that returned a handle and is at most `GPIO_MAX_INSTANCES`. -/
theorem live_instances_bounded (hal : PinReader) (calls : List Call) (s' : State)
    (hrun : run hal initState calls = some s') :
    liveInstances s' = (createdHandles hal initState calls).length ∧
      liveInstances s' ≤ GPIO_MAX_INSTANCES ∧
      (createdHandles hal initState calls).length ≤ GPIO_MAX_INSTANCES := by
  have hcount := run_liveInstances hal calls initState s' hrun
  have hzero : liveInstances initState = 0 := by
    simp [liveInstances, initState, zeroPool]
  have hbound : liveInstances s' ≤ GPIO_MAX_INSTANCES := by
    have h := Finset.card_le_univ
      (Finset.univ.filter fun q : Fin GPIO_MAX_INSTANCES => (s'.instances q).used = true)
    simpa [liveInstances] using h
  rw [hzero, Nat.zero_add] at hcount
  exact ⟨hcount, hbound, hcount ▸ hbound⟩

/-- Witness for C13: twelve creations from program start leave ten live instances. -/
theorem live_instances_bounded_witness :
    ∃ s' : State,
      run alwaysHigh initState (List.replicate 12 (Call.create 1 7)) = some s' ∧
        liveInstances s' = 10 ∧
        (createdHandles alwaysHigh initState (List.replicate 12 (Call.create 1 7))).length =
          10 ∧
        liveInstances s' =
          (createdHandles alwaysHigh initState (List.replicate 12 (Call.create 1 7))).length ∧
        liveInstances s' ≤ GPIO_MAX_INSTANCES :=
  have hsome :
      (run alwaysHigh initState (List.replicate 12 (Call.create 1 7))).isSome = true := rfl
  have h := live_instances_bounded alwaysHigh (List.replicate 12 (Call.create 1 7)) _
    (Option.some_get hsome).symm
  ⟨(run alwaysHigh initState (List.replicate 12 (Call.create 1 7))).get hsome,
    (Option.some_get hsome).symm, rfl, by decide, h.1, h.2.1⟩

/-- C17: under the static-pool strategy, in any sequence of interface calls from the
zero-initialised pool the handles returned by the `gpioCreate` calls that succeed are
pairwise distinct. -/
theorem created_handles_distinct (hal : PinReader) (calls : List Call) :
    (createdHandles hal initState calls).Nodup :=
  (createdHandles_fresh hal calls initState).1

/-! ## The per-instance state machine -/

/-- A sequence of calls on the handle of slot `p` runs to completion, keeps the port and
bit of the slot, and leaves its direction equal to the argument of the most recent
`setOutput`, or to the direction before the sequence when there was none. -/
theorem run_pinOps (hal : PinReader) (p : Fin GPIO_MAX_INSTANCES) (ops : List PinOp) :
    ∀ s : State,
      ∃ s1 : State,
        run hal s (ops.map (PinOp.toCall (some p))) = some s1 ∧
          (s1.instances p).port = (s.instances p).port ∧
          (s1.instances p).bit = (s.instances p).bit ∧
          (s1.instances p).output = (lastSetOutput ops).getD (s.instances p).output := by
  induction ops with
  | nil =>
    intro s
    exact ⟨s, rfl, rfl, rfl, rfl⟩
  | cons op rest ih =>
    intro s
    have hfirst :
        ∃ s0 : State,
          step hal s (PinOp.toCall (some p) op) = some s0 ∧
            (s0.instances p).port = (s.instances p).port ∧
            (s0.instances p).bit = (s.instances p).bit ∧
            (s0.instances p).output =
              match op with
              | PinOp.setOutput output => output
              | _ => (s.instances p).output := by
      cases op with
      | setOutput output => exact ⟨_, rfl, by simp, by simp, by simp⟩
      | setState state =>
        obtain ⟨s0, hs0, hinst⟩ := gpioSetState_instances s p state
        exact ⟨s0, hs0, by rw [hinst], by rw [hinst], by rw [hinst]⟩
      | getState => exact ⟨_, rfl, rfl, rfl, rfl⟩
    obtain ⟨s0, hstep, hport0, hbit0, hout0⟩ := hfirst
    obtain ⟨s1, hrun, hport1, hbit1, hout1⟩ := ih s0
    refine ⟨s1, ?_, hport1.trans hport0, hbit1.trans hbit0, ?_⟩
    · simp only [List.map_cons, run, hstep, Option.some_bind]
      exact hrun
    · rw [hout1, hout0]
      simp only [lastSetOutput]
      cases hlast : lastSetOutput rest with
      | some output => rfl
      | none => cases op <;> rfl

/-- C16: for every handle returned by `gpioCreate port bit` and every sequence of
`gpioSetOutput`, `gpioSetState` and `gpioGetState` calls on it, the sequence runs to
completion and a following `gpioSetState` appends the output-level call
`hal_gpio_set_output(port, bit, level)` if the most recent `gpioSetOutput` of the
sequence was called with `true`, and otherwise (most recent one called with `false`, or
no `gpioSetOutput` at all) leaves the state, and so the trace, unchanged. -/
theorem setState_drives_iff_last_setOutput_true (hal : PinReader) (s : State)
    (port bit : uint8_t) (p : Fin GPIO_MAX_INSTANCES)
    (hcreate : (gpioCreate s port bit).1 = some p) (ops : List PinOp) (level : Bool) :
    ∃ s1 : State,
      run hal (gpioCreate s port bit).2 (ops.map (PinOp.toCall (some p))) = some s1 ∧
        gpioSetState s1 (some p) level =
          some
            (if lastSetOutput ops = some true then
              { s1 with trace := s1.trace ++ [HalCall.hal_gpio_set_output port bit level] }
            else s1) := by
  have hinit : ((gpioCreate s port bit).2.instances p).port = port ∧
      ((gpioCreate s port bit).2.instances p).bit = bit ∧
      ((gpioCreate s port bit).2.instances p).output = false := by
    rcases gpioCreate_spec s port bit with ⟨p', _, _, h⟩ | ⟨_, h⟩
    · rw [h] at hcreate ⊢
      have hp : p' = p := Option.some.inj hcreate
      subst hp
      simp
    · rw [h] at hcreate
      exact absurd hcreate (by simp)
  obtain ⟨s1, hrun, hport, hbit, hout⟩ := run_pinOps hal p ops (gpioCreate s port bit).2
  rw [hinit.1] at hport
  rw [hinit.2.1] at hbit
  rw [hinit.2.2] at hout
  refine ⟨s1, hrun, ?_⟩
  cases hlast : lastSetOutput ops with
  | none =>
    rw [hlast] at hout
    simp [gpioSetState, show (s1.instances p).output = false from hout]
  | some output =>
    rw [hlast] at hout
    cases output with
    | false => simp [gpioSetState, show (s1.instances p).output = false from hout]
    | true =>
      simp [gpioSetState, show (s1.instances p).output = true from hout, hport, hbit]

/-- Witness for C16: after configure-as-output, drive, configure-as-input, read and
configure-as-output again, a `gpioSetState` drives the pin. -/
theorem setState_drives_iff_last_setOutput_true_witness :
    (gpioCreate initState 1 7).1 = some 0 ∧
      ∃ s1 : State,
        run alwaysHigh (gpioCreate initState 1 7).2
            ([PinOp.setOutput true, PinOp.setState false, PinOp.setOutput false,
              PinOp.getState, PinOp.setOutput true].map (PinOp.toCall (some 0))) = some s1 ∧
          gpioSetState s1 (some 0) true =
            some
              (if lastSetOutput
                    [PinOp.setOutput true, PinOp.setState false, PinOp.setOutput false,
                      PinOp.getState, PinOp.setOutput true] = some true then
                { s1 with trace := s1.trace ++ [HalCall.hal_gpio_set_output 1 7 true] }
              else s1) :=
  ⟨by decide,
    setState_drives_iff_last_setOutput_true alwaysHigh initState 1 7 0 (by decide)
      [PinOp.setOutput true, PinOp.setState false, PinOp.setOutput false, PinOp.getState,
        PinOp.setOutput true] true⟩

/-! ## Dynamic-memory build -/

/-- When the heap grants the request, `gpioCreate` of the dynamic build returns the
address of the fresh block, and the block holds the given port and bit and direction
input; earlier blocks and the trace are as before. -/
theorem dynamic_gpioCreate_granted (block : Dynamic.gpio_s) (s : Dynamic.State)
    (port bit : uint8_t) :
    Dynamic.gpioCreate (some block) s port bit =
      (some s.heap.length,
        { s with heap := s.heap ++ [{ port := port, bit := bit, output := false }] }) := by
  simp [Dynamic.gpioCreate, Dynamic.malloc]

/-- When the heap refuses the request, `gpioCreate` of the dynamic build returns `NULL`
and changes nothing. -/
theorem dynamic_gpioCreate_refused (s : Dynamic.State) (port bit : uint8_t) :
    Dynamic.gpioCreate none s port bit = (none, s) := by
  simp [Dynamic.gpioCreate, Dynamic.malloc]

/-- When the heap grants every request, consecutive creations of the dynamic build
return the addresses of consecutive fresh blocks. -/
theorem dynamic_createAll_granted (reqs : List (Option Dynamic.gpio_s × uint8_t × uint8_t)) :
    ∀ s : Dynamic.State,
      (∀ r ∈ reqs, r.1 ≠ none) →
        (Dynamic.createAll s reqs).1 =
          (List.range reqs.length).map fun i => some (s.heap.length + i) := by
  induction reqs with
  | nil =>
    intro s _
    rfl
  | cons r rest ih =>
    intro s hgrant
    obtain ⟨answer, port, bit⟩ := r
    have hans : answer ≠ none := hgrant (answer, port, bit) (List.mem_cons_self _ _)
    obtain ⟨block, hblock⟩ := Option.ne_none_iff_exists'.mp hans
    subst hblock
    have hrest := ih (Dynamic.gpioCreate (some block) s port bit).2
      (fun r hr => hgrant r (List.mem_cons_of_mem _ hr))
    simp only [Dynamic.createAll, List.length_cons]
    rw [hrest, dynamic_gpioCreate_granted, List.range_succ_eq_map, List.map_cons, List.map_map]
    simp only [List.length_append, List.length_singleton, Nat.add_zero]
    congr 1
    apply List.map_congr_left
    intro i _
    simp only [Function.comp, Nat.succ_eq_add_one]
    congr 1
    omega

/-- C15: in the dynamic build, with the heap's reply to each request supplied from
outside, `gpioCreate` returns `NULL` exactly when the request is refused; when it is
granted the fresh block is returned and holds the given port and bit and direction
input; and there is no bound on the number of instances: any number of consecutive
creations, eleven in particular, all return a handle when the heap grants every
request. -/
theorem dynamic_gpioCreate_follows_heap (s : Dynamic.State) (port bit : uint8_t) :
    (∀ answer : Option Dynamic.gpio_s,
        (Dynamic.gpioCreate answer s port bit).1 = none ↔ answer = none) ∧
      (∀ block : Dynamic.gpio_s,
        ∃ a : Nat,
          (Dynamic.gpioCreate (some block) s port bit).1 = some a ∧
            (Dynamic.gpioCreate (some block) s port bit).2.heap[a]? =
              some { port := port, bit := bit, output := false }) ∧
      ∀ reqs : List (Option Dynamic.gpio_s × uint8_t × uint8_t),
        (∀ r ∈ reqs, r.1 ≠ none) →
          ((Dynamic.createAll s reqs).1.length = reqs.length ∧
            ∀ h ∈ (Dynamic.createAll s reqs).1, h ≠ none) := by
  refine ⟨?_, ?_, ?_⟩
  · intro answer
    cases answer with
    | none => simp [dynamic_gpioCreate_refused]
    | some block => simp [dynamic_gpioCreate_granted]
  · intro block
    refine ⟨s.heap.length, ?_, ?_⟩
    · rw [dynamic_gpioCreate_granted]
    · rw [dynamic_gpioCreate_granted]
      simp
  · intro reqs hgrant
    rw [dynamic_createAll_granted reqs s hgrant]
    refine ⟨by simp, ?_⟩
    intro h hh
    simp only [List.mem_map] at hh
    obtain ⟨i, _, hi⟩ := hh
    rw [← hi]
    simp

/-- Witness for C15: eleven granted requests from program start give eleven handles,
none of them `NULL`. -/
theorem dynamic_gpioCreate_follows_heap_witness :
    (∀ r ∈ elevenGranted, r.1 ≠ none) ∧
      (Dynamic.createAll Dynamic.initState elevenGranted).1.length = 11 ∧
      ∀ h ∈ (Dynamic.createAll Dynamic.initState elevenGranted).1, h ≠ none :=
  ⟨by decide,
    (dynamic_gpioCreate_follows_heap Dynamic.initState 0 0).2.2 elevenGranted (by decide)⟩

/-! ## The unchecked handle in `main` -/

/-- In the static-pool build `main`, run at program start, receives the handle of slot
0 and runs to completion. -/
theorem main_static_handle :
    (gpioCreate initState LED_ROJO_PORT LED_ROJO_BIT).1 = some 0 ∧
      (main initState).isSome = true := by
  decide

/-- C14, the code at the failing input: in the dynamic build, when the heap refuses the
request that `main` causes, `gpioCreate` returns `NULL` and `main` passes it to
`gpioSetOutput`, which dereferences it; `main` has no resulting state. -/
theorem main_dereferences_null_when_heap_refuses (s : Dynamic.State) :
    (Dynamic.gpioCreate none s LED_ROJO_PORT LED_ROJO_BIT).1 = none ∧
      Dynamic.gpioSetOutput (Dynamic.gpioCreate none s LED_ROJO_PORT LED_ROJO_BIT).2
          (Dynamic.gpioCreate none s LED_ROJO_PORT LED_ROJO_BIT).1 true = none ∧
      Dynamic.main none s = none := by
  simp [Dynamic.main, dynamic_gpioCreate_refused, Dynamic.gpioSetOutput]

end Gpio
